import Mathlib

/-!
Verification of the path-expression parser and DOM resolver/collector of the
web-scraper repository (package `scraper`, file `scraper.go`).

Strings are modelled as `List Char` (Go strings are UTF-8 byte slices; every
index computed by the code — `IndexByte '['`, `IndexByte ']'`, `IndexAny digits`
— refers to single-byte characters, so character positions and byte positions
order identically and all comparisons performed by the code give the same
verdict in the character model).  Machine integers: `strconv.Atoi` produces a
64-bit `int`, modelled as `Int` with the explicit range check Go performs; the
final `uint(n)` conversion is modelled as `% 2^64` two's-complement wrap.
A nil `*html.Node` is `none`; a non-nil pointer into a sibling chain is the
pair of the node and the list of its following siblings.  A nil-pointer
dereference (process abort) is the explicit result `crash`.
-/

namespace Scraper

/-- Go `html.NodeType` (package `golang.org/x/net/html`). -/
inductive NodeType where
  | errorNode
  | textNode
  | documentNode
  | elementNode
  | commentNode
  | doctypeNode
  | rawNode
deriving DecidableEq, Repr

/-- A parsed HTML node: kind, data field (tag name / text payload) and the
list of children.  `FirstChild` of `mk _ _ cs` is the head of `cs`; the
`NextSibling` chain of that child is the tail of `cs`. -/
inductive Node where
  | mk (type : NodeType) (data : List Char) (children : List Node)

/-- Projection modelling `n.Type` of the Go node. -/
def Node.type : Node → NodeType
  | .mk t _ _ => t

/-- Projection modelling `n.Data` of the Go node. -/
def Node.data : Node → List Char
  | .mk _ d _ => d

/-- The children of a node: `n.FirstChild` and its sibling chain. -/
def Node.children : Node → List Node
  | .mk _ _ cs => cs

/-- Model of `unicode.IsSpace` (the white-space set trimmed by `strings.TrimSpace`). -/
def goIsSpace (ch : Char) : Bool :=
  ch ∈ ([' ', '\t', '\n', '\x0b', '\x0c', '\r',
         Char.ofNat 0x85, Char.ofNat 0xa0, Char.ofNat 0x1680,
         Char.ofNat 0x2000, Char.ofNat 0x2001, Char.ofNat 0x2002,
         Char.ofNat 0x2003, Char.ofNat 0x2004, Char.ofNat 0x2005,
         Char.ofNat 0x2006, Char.ofNat 0x2007, Char.ofNat 0x2008,
         Char.ofNat 0x2009, Char.ofNat 0x200a, Char.ofNat 0x2028,
         Char.ofNat 0x2029, Char.ofNat 0x202f, Char.ofNat 0x205f,
         Char.ofNat 0x3000] : List Char)

/-- Model of `strings.TrimSpace`: drop leading and trailing white space. -/
def goTrimSpace (l : List Char) : List Char :=
  ((l.dropWhile goIsSpace).reverse.dropWhile goIsSpace).reverse

/-- The constant `notAllowedSymbols` of `scraper.go`:
the characters of the Go string literal containing
bang, at, hash, dollar, percent, caret, ampersand, star, underscore, plus,
minus, equals, both braces, bang again, double quote, numero sign, semicolon,
single quote, less-than, greater-than, slash, backslash, tilde, backtick,
colon, question mark, star again. -/
def notAllowedSymbols : List Char :=
  ['!', '@', '#', '$', '%', '^', '&', '*', '_', '+', '-', '=',
   '\x7b', '\x7d', '!', Char.ofNat 34, Char.ofNat 8470, ';', Char.ofNat 39,
   '<', '>', '/', '\\', '~', Char.ofNat 96, ':', '?', '*']

/-- The constant `digits = "1234567890"` of `scraper.go`. -/
def goDigits : List Char :=
  ['1', '2', '3', '4', '5', '6', '7', '8', '9', '0']

/-- Model of `strings.IndexByte`: index of the first occurrence of `ch`, `-1` if absent. -/
def goIndexByte (ch : Char) : List Char → Int
  | [] => -1
  | x :: xs =>
    if x = ch then 0
    else
      let r := goIndexByte ch xs
      if r = -1 then -1 else r + 1

/-- Model of `strings.IndexAny`: index of the first character drawn from `set`,
`-1` if none occurs. -/
def goIndexAny (set : List Char) : List Char → Int
  | [] => -1
  | x :: xs =>
    if set.contains x then 0
    else
      let r := goIndexAny set xs
      if r = -1 then -1 else r + 1

/-- Digit run to its decimal value. -/
def digitsToNat (l : List Char) : Nat :=
  l.foldl (fun acc ch => acc * 10 + (ch.toNat - 48)) 0

/-- Model of `strconv.Atoi` on a 64-bit platform: optional sign, then a non-empty
run of decimal digits; values outside the `int64` range are an error. -/
def goAtoi (s : List Char) : Option Int :=
  match s with
  | [] => none
  | c :: rest =>
    let signDigits : Bool × List Char :=
      if c = '+' then (false, rest)
      else if c = '-' then (true, rest)
      else (false, s)
    let neg := signDigits.1
    let ds := signDigits.2
    if ds = [] then none
    else if ds.all (fun ch => goDigits.contains ch) then
      let v : Int := (digitsToNat ds : Int)
      let v : Int := if neg then -v else v
      if v < -(2 : Int)^63 ∨ v > (2 : Int)^63 - 1 then none else some v
    else none

/-- The function `parseElement` of `scraper.go`: trims the segment, rejects the empty
string and disallowed symbols, validates the square-bracket arrangement,
performs the digit-position check, and returns the ordinal — `1` when no
brackets are present, otherwise `uint(Atoi(content))`.  `none` models a
non-nil Go error. -/
def parseElement (path0 : List Char) : Option Nat :=
  let path := goTrimSpace path0
  if path = [] then none
  else if path.any (fun ch => notAllowedSymbols.contains ch) then none
  else
    let o := goIndexByte '[' path
    let c := goIndexByte ']' path
    if (¬((o = -1) ↔ (c = -1))) ∨ c < o ∨
        (c ≠ -1 ∧ c ≠ (path.length : Int) - 1) ∨ o = 0 then none
    else
      let d := goIndexAny goDigits path
      if d > c ∧ c ≠ -1 then none
      else if o = -1 ∧ c = -1 then some 1
      else
        match goAtoi ((path.drop (o.toNat + 1)).take (c.toNat - (o.toNat + 1))) with
        | none => none
        | some n => some ((n % (2 : Int)^64).toNat)

/-- Model of `strings.Split(s, "/")` for the single-byte separator: the list of
chunks between slashes (never empty; splitting the empty string gives one
empty chunk, exactly as in Go). -/
def splitSlash : List Char → List (List Char)
  | [] => [[]]
  | c :: rest =>
    if c = '/' then [] :: splitSlash rest
    else
      match splitSlash rest with
      | [] => [[c]]
      | s :: ss => (c :: s) :: ss

/-- Result of `findNode` / `FindNode`: `crash` models a nil-pointer
dereference (the Go process aborts), `err` a non-nil `error`, and `ok p`
the pair `(node, nil)` where `p` is the returned node pointer (`none` for a
nil node). `ok (some (n, ns))` carries the matched node together with its
following siblings, because the caller can keep walking `NextSibling`. -/
inductive NodeResult where
  | crash
  | err
  | ok (p : Option (Node × List Node))

/-- The literal `"text"` used by the reserved text-match check. -/
def textLit : List Char := ['t', 'e', 'x', 't']

/-- The sibling-scan loop of `findNode` (`for n := rootNode; n != nil; n =
n.NextSibling`).  `k` is the continuation `findNode path[1:]` applied to the
matched node; `tagNum` the parsed ordinal; `target` the segment's tag name
after stripping the bracket suffix; `count` the per-level counter
`tagsCount`. -/
def findLoop (k : Option (Node × List Node) → NodeResult) (tagNum : Nat)
    (target : List Char) : List Node → Nat → NodeResult
  | [], _ => .err
  | n :: ns, count =>
    if (n.type = NodeType.textNode ∧ textLit <+: target) ∨ n.data = target then
      if count = tagNum then k (some (n, ns))
      else findLoop k tagNum target ns (count + 1)
    else findLoop k tagNum target ns count

/-- The function `findNode` of `scraper.go`.  An empty path returns the current pointer;
otherwise `rootNode = rootNode.FirstChild` is taken (a nil `rootNode`
crashes here), the head segment is parsed, its bracket suffix stripped for
matching, and the sibling chain is scanned with the counter starting at 1. -/
def findNode : List (List Char) → Option (Node × List Node) → NodeResult
  | [], root => .ok root
  | _ :: _, none => .crash
  | seg :: rest, some (r, _) =>
    match parseElement seg with
    | none => .err
    | some tagNum =>
      let target := if seg.contains '[' then seg.takeWhile (fun ch => ch ≠ '[') else seg
      findLoop (findNode rest) tagNum target r.children 1

/-- The method `FindNode` of `scraper.go`: require the leading `"/"`, split the
remainder on `"/"` and drop the first chunk (`strings.Split(fullXPath[1:],
pathDelimiter)[1:]`), then resolve starting from
`s.doc.FirstChild.NextSibling` (a document without children crashes on the
`.NextSibling` dereference).  The `utf8.ValidString` guard never fails in
this model, since `List Char` is always valid text. -/
def FindNode (doc : Node) (fullXPath : List Char) : NodeResult :=
  match fullXPath with
  | [] => .err
  | ch :: rest =>
    if ch ≠ '/' then .err
    else
      match doc.children with
      | [] => .crash
      | [_] => findNode ((splitSlash rest).drop 1) none
      | _ :: n :: ns => findNode ((splitSlash rest).drop 1) (some (n, ns))

/-- Result of `GetValue`: the text payload, an error, or a crash. -/
inductive ValueResult where
  | crash
  | err
  | ok (s : List Char)

/-- The method `GetValue` of `scraper.go`: resolve, then return `node.Data` when
`node.Type == html.TextNode`, else an error.  A nil resolved node crashes on
the `node.Type` dereference. -/
def GetValue (doc : Node) (fullXPath : List Char) : ValueResult :=
  match FindNode doc fullXPath with
  | .crash => .crash
  | .err => .err
  | .ok none => .crash
  | .ok (some (n, _)) =>
    if n.type = NodeType.textNode then .ok n.data else .err

/-- The function `collectAfter` of `scraper.go`, expressed on the sibling chain that
starts at the argument pointer: visit the node, then its first-child chain
recursively, then continue with the next sibling.  `collectAfter []` is the
nil-pointer case, where the loop body never runs. -/
def collectAfter : List Node → List Node
  | [] => []
  | .mk t d cs :: ns => .mk t d cs :: (collectAfter cs ++ collectAfter ns)

/-- Result of `NextAfter` / `GetChildes`. -/
inductive NodesResult where
  | crash
  | err
  | ok (ns : List Node)

/-- The method `NextAfter` of `scraper.go`: resolve, then `collectAfter(node)` — the
chain starting at the resolved node itself. -/
def NextAfter (doc : Node) (fullXPath : List Char) : NodesResult :=
  match FindNode doc fullXPath with
  | .crash => .crash
  | .err => .err
  | .ok none => .ok (collectAfter [])
  | .ok (some (n, ns)) => .ok (collectAfter (n :: ns))

/-- The method `GetChildes` of `scraper.go`: resolve, then `collectAfter(node.FirstChild)`
— the resolved node's child chain.  A nil resolved node crashes on the
`node.FirstChild` dereference. -/
def GetChildes (doc : Node) (fullXPath : List Char) : NodesResult :=
  match FindNode doc fullXPath with
  | .crash => .crash
  | .err => .err
  | .ok none => .crash
  | .ok (some (n, _)) => .ok (collectAfter n.children)

/-! ### Specification-side definitions

The following definitions are written from the specification's words, to be
compared with the embedded code above. -/

mutual
/-- Preorder traversal of one tree: the node, then its children's forests. -/
def preorderTree : Node → List Node
  | .mk t d cs => .mk t d cs :: preorderForest cs

/-- Preorder traversal of a forest, tree by tree. -/
def preorderForest : List Node → List Node
  | [] => []
  | n :: ns => preorderTree n ++ preorderForest ns
end

/-- The matching rule actually implemented by the sibling scan: a Text node
when the target carries the reserved `text` prefix, or any node whose data
field equals the target. -/
def matchesSegment (target : List Char) (n : Node) : Prop :=
  (n.type = NodeType.textNode ∧ textLit <+: target) ∨ n.data = target

instance (target : List Char) (n : Node) : Decidable (matchesSegment target n) := by
  unfold matchesSegment; infer_instance

/-- The `k`-th node (0-based) of a sibling chain satisfying
`matchesSegment target`, together with its following siblings. -/
def nthMatchPtr (target : List Char) : List Node → Nat → Option (Node × List Node)
  | [], _ => none
  | n :: ns, k =>
    if matchesSegment target n then
      if k = 0 then some (n, ns) else nthMatchPtr target ns (k - 1)
    else nthMatchPtr target ns k

/-- Variant of `parseElement` with the digit-position check (`d > c && c != -1`)
removed, and everything else identical.  Used to show that check is dead
code. -/
def parseElementNoDigitCheck (path0 : List Char) : Option Nat :=
  let path := goTrimSpace path0
  if path = [] then none
  else if path.any (fun ch => notAllowedSymbols.contains ch) then none
  else
    let o := goIndexByte '[' path
    let c := goIndexByte ']' path
    if (¬((o = -1) ↔ (c = -1))) ∨ c < o ∨
        (c ≠ -1 ∧ c ≠ (path.length : Int) - 1) ∨ o = 0 then none
    else
      if o = -1 ∧ c = -1 then some 1
      else
        match goAtoi ((path.drop (o.toNat + 1)).take (c.toNat - (o.toNat + 1))) with
        | none => none
        | some n => some ((n % (2 : Int)^64).toNat)

/-! ### Fixture documents -/

/-- A fixture `html` element with a single text child. -/
def fixtureHtml : Node :=
  .mk .elementNode ("html".toList) [.mk .textNode ("hi".toList) []]

/-- A fixture document in the shape produced by `html.Parse` for a page with
a doctype: `Document → [Doctype html, Element html]`. -/
def fixtureDoc : Node :=
  .mk .documentNode [] [.mk .doctypeNode ("html".toList) [], fixtureHtml]

/-- A document whose root has a single child — the shape `html.Parse`
produces for input without a doctype: `Document → [Element html]`. -/
def docWithoutDoctype : Node :=
  .mk .documentNode [] [fixtureHtml]

/-- A text node whose payload happens to equal the tag name `div`. -/
def textNodeDiv : Node := .mk .textNode ("div".toList) []

/-- A document whose `html` element contains only `textNodeDiv`. -/
def docTextData : Node :=
  .mk .documentNode []
    [.mk .doctypeNode ("html".toList) [],
     .mk .elementNode ("html".toList) [textNodeDiv]]

/-- An Error-kind node. -/
def errorNodeOops : Node := .mk .errorNode ("oops".toList) []

/-- A `div` element node. -/
def divElement : Node := .mk .elementNode ("div".toList) []

/-- A document whose `html` element holds an Error-kind node followed by a
`div` element. -/
def docWithErrorNode : Node :=
  .mk .documentNode []
    [.mk .doctypeNode ("html".toList) [],
     .mk .elementNode ("html".toList) [errorNodeOops, divElement]]

/-! ### Helper lemmas -/

theorem goIndexByte_of_not_mem (ch : Char) (l : List Char) (h : ch ∉ l) :
    goIndexByte ch l = -1 := by
  induction l with
  | nil => rfl
  | cons x xs ih =>
    have hx : ¬ x = ch := by rintro rfl; exact h (List.mem_cons_self _ _)
    have hxs : ch ∉ xs := fun hm => h (List.mem_cons_of_mem _ hm)
    simp [goIndexByte, hx, ih hxs]

theorem goIndexByte_append (ch : Char) (a t : List Char) (h : ch ∉ a) :
    goIndexByte ch (a ++ ch :: t) = (a.length : Int) := by
  induction a with
  | nil => simp [goIndexByte]
  | cons x xs ih =>
    have hx : ¬ x = ch := by rintro rfl; exact h (List.mem_cons_self _ _)
    have hxs : ch ∉ xs := fun hm => h (List.mem_cons_of_mem _ hm)
    have hlen : ((xs.length : Int)) ≠ -1 := by omega
    simp [goIndexByte, hx, ih hxs, hlen]

theorem goIndexAny_lt_length (set l : List Char) :
    goIndexAny set l < (l.length : Int) := by
  induction l with
  | nil => simp [goIndexAny]
  | cons x xs ih =>
    by_cases hx : set.contains x = true
    · simp [goIndexAny, hx]
      omega
    · simp only [goIndexAny, hx, if_false, Bool.false_eq_true, List.length_cons]
      by_cases hr : goIndexAny set xs = -1
      · simp [hr]
        omega
      · simp [hr]
        omega

theorem dropWhile_dropWhile (p : Char → Bool) (l : List Char) :
    (l.dropWhile p).dropWhile p = l.dropWhile p := by
  induction l with
  | nil => rfl
  | cons x xs ih =>
    by_cases hp : p x
    · simp [List.dropWhile_cons, hp, ih]
    · simp [List.dropWhile_cons, hp]

theorem dropWhile_append_last (p : Char → Bool) (a : Char) (xs : List Char)
    (h : p a = false) : (xs ++ [a]).dropWhile p = xs.dropWhile p ++ [a] := by
  induction xs with
  | nil => simp [List.dropWhile_cons, h]
  | cons x l ih =>
    by_cases hp : p x
    · simp [List.dropWhile_cons, hp, ih]
    · simp [List.dropWhile_cons, hp]

theorem head_dropWhile (p : Char → Bool) (l : List Char) (a : Char)
    (t : List Char) (h : l.dropWhile p = a :: t) : p a = false := by
  induction l with
  | nil => simp [List.dropWhile] at h
  | cons x xs ih =>
    by_cases hp : p x
    · exact ih (by simpa [List.dropWhile_cons, hp] using h)
    · rw [List.dropWhile_cons, if_neg (by simpa using hp)] at h
      cases h
      simpa using hp

theorem goTrimSpace_idem (l : List Char) :
    goTrimSpace (goTrimSpace l) = goTrimSpace l := by
  unfold goTrimSpace
  cases hr : l.dropWhile goIsSpace with
  | nil => simp [hr]
  | cons a t =>
    have ha : goIsSpace a = false := head_dropWhile _ _ _ _ hr
    have h1 : ((a :: t).reverse).dropWhile goIsSpace
        = (t.reverse).dropWhile goIsSpace ++ [a] := by
      rw [List.reverse_cons]
      exact dropWhile_append_last _ _ _ ha
    rw [h1]
    rw [List.reverse_append]
    simp only [List.reverse_singleton, List.singleton_append]
    rw [List.dropWhile_cons, if_neg (by simp [ha])]
    rw [List.reverse_cons, List.reverse_reverse]
    rw [dropWhile_append_last _ _ _ ha, dropWhile_dropWhile]
    simp

theorem mem_of_mem_dropWhile (p : Char → Bool) (l : List Char) (ch : Char)
    (h : ch ∈ l.dropWhile p) : ch ∈ l := by
  induction l with
  | nil => simp [List.dropWhile] at h
  | cons x xs ih =>
    by_cases hp : p x
    · exact List.mem_cons_of_mem _ (ih (by simpa [List.dropWhile_cons, hp] using h))
    · simpa [List.dropWhile_cons, hp] using h

theorem mem_of_mem_goTrimSpace (l : List Char) (ch : Char)
    (h : ch ∈ goTrimSpace l) : ch ∈ l := by
  unfold goTrimSpace at h
  rw [List.mem_reverse] at h
  have h2 := mem_of_mem_dropWhile _ _ _ h
  rw [List.mem_reverse] at h2
  exact mem_of_mem_dropWhile _ _ _ h2

theorem splitSlash_ne_nil (l : List Char) : splitSlash l ≠ [] := by
  cases l with
  | nil => simp [splitSlash]
  | cons x xs =>
    by_cases hx : x = '/'
    · simp [splitSlash, hx]
    · simp only [splitSlash, hx, if_false]
      split <;> simp

theorem splitSlash_append (a t : List Char) (h : '/' ∉ a) :
    splitSlash (a ++ '/' :: t) = a :: splitSlash t := by
  induction a with
  | nil => simp [splitSlash]
  | cons x xs ih =>
    have hx : ¬ x = '/' := by rintro rfl; exact h (List.mem_cons_self _ _)
    have hxs : '/' ∉ xs := fun hm => h (List.mem_cons_of_mem _ hm)
    rw [List.cons_append, splitSlash, if_neg hx, ih hxs]

theorem collectAfter_eq_preorderForest :
    ∀ ns : List Node, collectAfter ns = preorderForest ns
  | [] => by simp [collectAfter, preorderForest]
  | .mk t d cs :: rest => by
    simp only [collectAfter, preorderForest, preorderTree]
    rw [collectAfter_eq_preorderForest cs, collectAfter_eq_preorderForest rest]
    simp

/-! ### Claim theorems -/

/-- Claim C1, counterexample: the first raw segment is dropped by `FindNode`
without being parsed or validated.  The segment `!!` is rejected by
`parseElement` (disallowed characters), yet the path `/!!` resolves to the
`html` element of the fixture document instead of producing an error. -/
theorem C1_counterexample :
    parseElement ("!!".toList) = none
    ∧ FindNode fixtureDoc ("/!!".toList) = NodeResult.ok (some (fixtureHtml, [])) :=
  ⟨rfl, rfl⟩

/-- Claim C1 as amended: `FindNode` splits the remainder after the leading
delimiter and drops the first raw chunk unexamined, so any slash-free first
segment — malformed or not — leaves the result unchanged; resolution
consumes one tree level only per raw segment after the first. -/
theorem C1_amended (doc : Node) (first tail : List Char) (h : '/' ∉ first) :
    FindNode doc ('/' :: (first ++ '/' :: tail))
      = FindNode doc ('/' :: 'x' :: '/' :: tail) := by
  have hsplit : splitSlash (first ++ '/' :: tail) = first :: splitSlash tail :=
    splitSlash_append first tail h
  have hx : splitSlash ('x' :: '/' :: tail) = ['x'] :: splitSlash tail := by
    rw [show ('x' :: '/' :: tail) = (['x'] ++ '/' :: tail) from rfl]
    exact splitSlash_append ['x'] tail (by decide)
  simp only [FindNode, hsplit, hx, List.drop_succ_cons, List.drop_zero]

/-- Claim C1 witness: the amended equation at the fixture document with the
malformed first segment `!!`. -/
theorem C1_witness :
    FindNode fixtureDoc ('/' :: (("!!".toList) ++ '/' :: ("html".toList)))
      = FindNode fixtureDoc ('/' :: 'x' :: '/' :: ("html".toList)) :=
  C1_amended fixtureDoc ("!!".toList) ("html".toList) (by decide)

/-- Claim C2, counterexample: a Text node whose data equals the segment's
tag name counts as a match even though the tag name does not carry the
`text` prefix — the path `/html/div` resolves to a Text node with payload
`div`, contradicting the claim that only Element nodes match by tag name. -/
theorem C2_counterexample :
    FindNode docTextData ("/html/div".toList) = NodeResult.ok (some (textNodeDiv, []))
    ∧ textLit.isPrefixOf ("div".toList) = false
    ∧ textNodeDiv.type = NodeType.textNode :=
  ⟨rfl, rfl, rfl⟩

/-- Claim C2 as amended: a scanned sibling counts as a match iff it is a
Text node and the segment's tag name begins with `text`, or its data field —
whatever its kind — equals the segment's tag name; with the counter starting
at `count`, the scan selects the `(tagNum - count)`-th (0-based) such match,
erring when the chain holds fewer. -/
theorem C2_amended (k : Option (Node × List Node) → NodeResult) (tagNum : Nat)
    (target : List Char) (chain : List Node) (count : Nat)
    (h1 : 1 ≤ count) (h2 : count ≤ tagNum) :
    findLoop k tagNum target chain count =
      (match nthMatchPtr target chain (tagNum - count) with
       | none => NodeResult.err
       | some (n, ns) => k (some (n, ns))) := by
  induction chain generalizing count with
  | nil => simp [findLoop, nthMatchPtr]
  | cons n ns ih =>
    by_cases hm : matchesSegment target n
    · have hm' : (n.type = NodeType.textNode ∧ textLit <+: target) ∨ n.data = target := hm
      rw [findLoop, if_pos hm', nthMatchPtr, if_pos hm]
      by_cases hc : count = tagNum
      · subst hc
        simp
      · have hz : ¬ (tagNum - count = 0) := by omega
        rw [if_neg hc, if_neg hz, ih (count + 1) (by omega) (by omega)]
        have heq : tagNum - count - 1 = tagNum - (count + 1) := by omega
        rw [heq]
    · have hm' : ¬ ((n.type = NodeType.textNode ∧ textLit <+: target) ∨ n.data = target) := hm
      rw [findLoop, if_neg hm', nthMatchPtr, if_neg hm]
      exact ih count h1 h2

/-- Claim C2 witness: the amended scan equation at the Text node whose data
is `div`, with the counter starting at 1 and ordinal 1. -/
theorem C2_witness :
    findLoop NodeResult.ok 1 ("div".toList) [textNodeDiv] 1 =
      (match nthMatchPtr ("div".toList) [textNodeDiv] (1 - 1) with
       | none => NodeResult.err
       | some (n, ns) => NodeResult.ok (some (n, ns))) :=
  C2_amended NodeResult.ok 1 ("div".toList) [textNodeDiv] 1 (by decide) (by decide)

/-- Claim C3, counterexample: `findNode` never inspects the Error kind — a
sibling chain holding an Error node resolves normally instead of aborting:
`/html/div` returns the `div` element even though the chain scanned for
`div` starts with an Error-kind node. -/
theorem C3_counterexample :
    FindNode docWithErrorNode ("/html/div".toList)
      = NodeResult.ok (some (divElement, [])) := rfl

/-- Claim C3 as amended: an Error-kind node in the scanned chain does not
abort the resolution; unless its data field equals the segment's tag name it
is simply skipped, the scan continuing with the remaining siblings. -/
theorem C3_amended (k : Option (Node × List Node) → NodeResult)
    (tagNum : Nat) (target d : List Char) (cs ns : List Node) (count : Nat)
    (h : d ≠ target) :
    findLoop k tagNum target (Node.mk NodeType.errorNode d cs :: ns) count
      = findLoop k tagNum target ns count := by
  rw [findLoop, if_neg]
  rintro (⟨h1, _⟩ | h2)
  · exact absurd h1 (by simp [Node.type])
  · exact h (by simpa [Node.data] using h2)

/-- Claim C3 witness: the amended skip equation at the Error node `oops`
scanned for the segment `div`. -/
theorem C3_witness :
    findLoop NodeResult.ok 1 ("div".toList)
        [Node.mk NodeType.errorNode ("oops".toList) [], divElement] 1
      = findLoop NodeResult.ok 1 ("div".toList) [divElement] 1 :=
  C3_amended NodeResult.ok 1 ("div".toList) ("oops".toList) [] [divElement] 1 (by decide)

/-- Claim C4 (code bug, evaluated at the failing input): for a document
whose root has a single child — the shape `html.Parse` produces when the
input has no doctype — `FindNode` dereferences the nil
`doc.FirstChild.NextSibling` pointer's `FirstChild` field and the process
aborts instead of returning an error. -/
theorem C4_crash_on_missing_doctype :
    FindNode docWithoutDoctype ("/html/body".toList) = NodeResult.crash := rfl

/-- Claim C7: when resolution succeeds with node `n`, `GetValue` returns
`n`'s text payload when `n` is Text-kind and fails with an error otherwise. -/
theorem C7_getValue_requires_text (doc : Node) (p : List Char) (n : Node)
    (ns : List Node) (h : FindNode doc p = NodeResult.ok (some (n, ns))) :
    GetValue doc p =
      (if n.type = NodeType.textNode then ValueResult.ok n.data else ValueResult.err) := by
  unfold GetValue
  rw [h]

/-- Claim C7 witness: `/html` resolves to the fixture's `html` Element node,
so `GetValue` takes the error branch of the Text-kind test. -/
theorem C7_witness :
    GetValue fixtureDoc ("/html".toList) =
      (if fixtureHtml.type = NodeType.textNode
       then ValueResult.ok fixtureHtml.data else ValueResult.err) :=
  C7_getValue_requires_text fixtureDoc ("/html".toList) fixtureHtml [] rfl

/-- Claim C8: `collectAfter` materializes exactly the preorder traversal of
the forest formed by the start node and its following siblings, `NextAfter`
returns that traversal started at the resolved node itself, and `GetChildes`
returns it started at the resolved node's first child. -/
theorem C8_collect_preorder (doc : Node) (p : List Char) (n : Node)
    (ns ms : List Node) (h : FindNode doc p = NodeResult.ok (some (n, ns))) :
    collectAfter ms = preorderForest ms
    ∧ NextAfter doc p = NodesResult.ok (preorderForest (n :: ns))
    ∧ GetChildes doc p = NodesResult.ok (preorderForest n.children) := by
  refine ⟨collectAfter_eq_preorderForest ms, ?_, ?_⟩
  · unfold NextAfter
    rw [h]
    simp [collectAfter_eq_preorderForest]
  · unfold GetChildes
    rw [h]
    simp [collectAfter_eq_preorderForest]

/-- Claim C8 witness: the collector equations at the fixture document and
the path `/html`. -/
theorem C8_witness :
    collectAfter [fixtureHtml] = preorderForest [fixtureHtml]
    ∧ NextAfter fixtureDoc ("/html".toList) = NodesResult.ok (preorderForest [fixtureHtml])
    ∧ GetChildes fixtureDoc ("/html".toList)
        = NodesResult.ok (preorderForest fixtureHtml.children) :=
  C8_collect_preorder fixtureDoc ("/html".toList) fixtureHtml [] [fixtureHtml] rfl

/-- Claim C10: `parseElement` gives the same result on a segment and on the
segment with surrounding white space removed, and a white-space-only segment
is rejected exactly like the empty segment. -/
theorem C10_trim_invariance (l : List Char) :
    parseElement l = parseElement (goTrimSpace l)
    ∧ (l.all goIsSpace = true → parseElement l = none) := by
  constructor
  · unfold parseElement
    rw [goTrimSpace_idem]
  · intro h
    have hdw : l.dropWhile goIsSpace = [] := by
      rw [List.dropWhile_eq_nil_iff]
      intro x hx
      exact List.all_eq_true.1 h x hx
    have ht : goTrimSpace l = [] := by
      unfold goTrimSpace
      rw [hdw]
      rfl
    unfold parseElement
    rw [ht]
    simp

/-- Claim C10 witness: the trim equation and the rejection at the
white-space-only segment consisting of one blank. -/
theorem C10_witness :
    parseElement ([' '] : List Char) = parseElement (goTrimSpace [' '])
    ∧ parseElement ([' '] : List Char) = none :=
  ⟨(C10_trim_invariance [' ']).1, (C10_trim_invariance [' ']).2 (by decide)⟩

/-- A sign-free `goAtoi` success is a non-negative value within the
`int64` range. -/
theorem goAtoi_bounds (s : List Char) (v : Int)
    (h1 : '+' ∉ s) (h2 : '-' ∉ s) (h : goAtoi s = some v) :
    0 ≤ v ∧ v ≤ 2 ^ 63 - 1 := by
  cases s with
  | nil => simp [goAtoi] at h
  | cons c rest =>
    have hc1 : ¬ c = '+' := by rintro rfl; exact h1 (List.mem_cons_self _ _)
    have hc2 : ¬ c = '-' := by rintro rfl; exact h2 (List.mem_cons_self _ _)
    simp only [goAtoi, hc1, hc2, if_false] at h
    split_ifs at h
    all_goals
      injection h with hval
      subst hval
      exact ⟨Int.natCast_nonneg _, by omega⟩

/-- Claim C5, counterexample: bracket content `0` is accepted and returned
as the ordinal, although the claim demands that zero yield an error. -/
theorem C5_counterexample : parseElement ("someTag[0]".toList) = some 0 := rfl

/-- Claim C5 as amended: for a trimmed segment `tag[cs]` whose tag part is
non-empty, free of brackets and of disallowed symbols, and whose bracket
content is free of disallowed symbols and of `]`, `parseElement` succeeds
exactly when the content parses under Go `Atoi` semantics as a non-negative
integer in the `int64` range — zero included — and returns that value as
the ordinal. -/
theorem C5_amended (tag cs : List Char)
    (htrim : goTrimSpace (tag ++ '[' :: (cs ++ [']'])) = tag ++ '[' :: (cs ++ [']']))
    (htag : tag ≠ [])
    (hno : ∀ ch ∈ tag ++ cs, notAllowedSymbols.contains ch = false)
    (hbt : '[' ∉ tag) (hct : ']' ∉ tag) (hcc : ']' ∉ cs) :
    parseElement (tag ++ '[' :: (cs ++ [']']))
      = (match goAtoi cs with
         | none => none
         | some v => some v.toNat) := by
  have hseg_ne : tag ++ '[' :: (cs ++ [']']) ≠ [] := by simp
  have hany : (tag ++ '[' :: (cs ++ [']'])).any
      (fun ch => notAllowedSymbols.contains ch) = false := by
    rw [List.any_eq_false]
    intro ch hch
    simp only [List.mem_append, List.mem_cons] at hch
    rcases hch with hmem | rfl | hmem | rfl | hmem
    · have hx := hno ch (List.mem_append_left _ hmem)
      simp at hx
      simpa using hx
    · decide
    · have hx := hno ch (List.mem_append_right _ hmem)
      simp at hx
      simpa using hx
    · decide
    · simp at hmem
  have ho : goIndexByte '[' (tag ++ '[' :: (cs ++ [']'])) = (tag.length : Int) :=
    goIndexByte_append '[' tag (cs ++ [']']) hbt
  have hc : goIndexByte ']' (tag ++ '[' :: (cs ++ [']']))
      = (tag.length : Int) + 1 + (cs.length : Int) := by
    have hshape : tag ++ '[' :: (cs ++ [']']) = (tag ++ '[' :: cs) ++ ']' :: [] := by
      simp only [List.append_assoc, List.cons_append]
    have hnm : ']' ∉ tag ++ '[' :: cs := by
      intro hmm
      simp only [List.mem_append, List.mem_cons] at hmm
      rcases hmm with hmm2 | hmm2 | hmm2
      · exact hct hmm2
      · simp at hmm2
      · exact hcc hmm2
    rw [hshape, goIndexByte_append ']' (tag ++ '[' :: cs) [] hnm]
    simp only [List.length_append, List.length_cons, List.length_nil]
    push_cast
    omega
  have hlen : (((tag ++ '[' :: (cs ++ [']'])).length : Int))
      = (tag.length : Int) + 1 + (cs.length : Int) + 1 := by
    simp only [List.length_append, List.length_cons, List.length_nil]
    push_cast
    omega
  have htagpos : 0 < tag.length := List.length_pos.2 htag
  have hd := goIndexAny_lt_length goDigits (tag ++ '[' :: (cs ++ [']']))
  simp only [parseElement]
  rw [htrim, if_neg hseg_ne, hany]
  rw [if_neg (by simp)]
  rw [ho, hc, hlen]
  rw [if_neg (by omega)]
  rw [hlen] at hd
  rw [if_neg (by omega)]
  rw [if_neg (by omega)]
  have ho_toNat : ((tag.length : Int)).toNat = tag.length := by omega
  have hc_toNat : ((tag.length : Int) + 1 + (cs.length : Int)).toNat
      = tag.length + 1 + cs.length := by omega
  rw [ho_toNat, hc_toNat]
  have hslice : ((tag ++ '[' :: (cs ++ [']'])).drop (tag.length + 1)).take
      (tag.length + 1 + cs.length - (tag.length + 1)) = cs := by
    have harith : tag.length + 1 + cs.length - (tag.length + 1) = cs.length := by
      omega
    have hshape : tag ++ '[' :: (cs ++ [']']) = (tag ++ ['[']) ++ (cs ++ [']']) := by
      simp only [List.append_assoc, List.cons_append, List.nil_append]
    have hlen2 : tag.length + 1 = (tag ++ ['[']).length := by simp
    rw [harith, hshape, hlen2, List.drop_left, List.take_left]
  rw [hslice]
  have hplus : '+' ∉ cs := by
    intro hm
    have hx := hno '+' (List.mem_append_right _ hm)
    exact absurd hx (by decide)
  have hminus : '-' ∉ cs := by
    intro hm
    have hx := hno '-' (List.mem_append_right _ hm)
    exact absurd hx (by decide)
  cases hAtoi : goAtoi cs with
  | none => simp
  | some v =>
    have hv := goAtoi_bounds cs v hplus hminus hAtoi
    show some ((v % (2 : Int) ^ 64).toNat) = some v.toNat
    have hmod : ((v % (2 : Int) ^ 64)).toNat = v.toNat := by
      obtain ⟨hv1, hv2⟩ := hv
      omega
    rw [hmod]

/-- Claim C5 witness: the amended equation at the segment `someTag[7]`. -/
theorem C5_witness :
    parseElement (("someTag".toList) ++ '[' :: (("7".toList) ++ [']']))
      = (match goAtoi ("7".toList) with
         | none => none
         | some v => some v.toNat) :=
  C5_amended ("someTag".toList) ("7".toList) (by decide) (by decide) (by decide)
    (by decide) (by decide) (by decide)

/-- Claim C6, counterexample: the segment `someTag1[9]` carries the digit
`1` outside the bracket span, yet `parseElement` accepts it with ordinal 9 —
exactly what the repository's own test table expects. -/
theorem C6_counterexample : parseElement ("someTag1[9]".toList) = some 9 := rfl

/-- Claim C6 as amended: when brackets are present, the digit-position check
can only reject a digit strictly after the `]`; since the bracket
arrangement check already forces `]` to be the last character, the check
never fires, and `parseElement` coincides with the same parser with the
check removed — digits before the `[` are accepted as part of the tag
name, and `someTag1[9]` parses to ordinal 9. -/
theorem C6_amended :
    (∀ l : List Char, parseElement l = parseElementNoDigitCheck l)
    ∧ parseElement ("someTag1[9]".toList) = some 9 := by
  refine ⟨fun l => ?_, rfl⟩
  simp only [parseElement, parseElementNoDigitCheck]
  by_cases h0 : goTrimSpace l = []
  · simp [h0]
  · rw [if_neg h0, if_neg h0]
    by_cases h1 : ((goTrimSpace l).any fun ch => notAllowedSymbols.contains ch) = true
    · rw [if_pos h1, if_pos h1]
    · rw [if_neg h1, if_neg h1]
      by_cases hbr : (¬((goIndexByte '[' (goTrimSpace l) = -1)
            ↔ (goIndexByte ']' (goTrimSpace l) = -1)))
          ∨ goIndexByte ']' (goTrimSpace l) < goIndexByte '[' (goTrimSpace l)
          ∨ (goIndexByte ']' (goTrimSpace l) ≠ -1
             ∧ goIndexByte ']' (goTrimSpace l) ≠ ((goTrimSpace l).length : Int) - 1)
          ∨ goIndexByte '[' (goTrimSpace l) = 0
      · rw [if_pos hbr, if_pos hbr]
      · rw [if_neg hbr, if_neg hbr]
        rw [if_neg (by
          have hlt := goIndexAny_lt_length goDigits (goTrimSpace l)
          push_neg at hbr
          omega)]

/-- Claim C9, counterexample: the one-blank segment is non-empty, contains
no brackets and no disallowed symbols, yet `parseElement` rejects it
(because it trims to the empty string) instead of returning ordinal 1. -/
theorem C9_counterexample :
    (([' '] : List Char).isEmpty = false)
    ∧ (([' '] : List Char).contains '[' = false)
    ∧ (([' '] : List Char).contains ']' = false)
    ∧ (([' '] : List Char).any (fun ch => notAllowedSymbols.contains ch) = false)
    ∧ parseElement ([' '] : List Char) = none := by
  refine ⟨rfl, rfl, rfl, by decide, rfl⟩

/-- Claim C9 as amended: every segment that is non-empty after trimming
white space and contains neither square brackets nor disallowed symbols
parses with ordinal 1, while the bracket-malformed segment `someTag[1`
fails. -/
theorem C9_amended (l : List Char)
    (h1 : goTrimSpace l ≠ [])
    (h2 : ∀ ch ∈ l, notAllowedSymbols.contains ch = false)
    (h3 : '[' ∉ l) (h4 : ']' ∉ l) :
    parseElement l = some 1
    ∧ parseElement ("someTag[1".toList) = none := by
  refine ⟨?_, rfl⟩
  simp only [parseElement]
  rw [if_neg h1]
  have hany : ((goTrimSpace l).any fun ch => notAllowedSymbols.contains ch) = false := by
    rw [List.any_eq_false]
    intro ch hch
    have hx := h2 ch (mem_of_mem_goTrimSpace l ch hch)
    simp at hx
    simpa using hx
  rw [hany]
  rw [if_neg (by simp)]
  have ho : goIndexByte '[' (goTrimSpace l) = -1 :=
    goIndexByte_of_not_mem _ _ (fun hm => h3 (mem_of_mem_goTrimSpace _ _ hm))
  have hc : goIndexByte ']' (goTrimSpace l) = -1 :=
    goIndexByte_of_not_mem _ _ (fun hm => h4 (mem_of_mem_goTrimSpace _ _ hm))
  rw [ho, hc]
  rw [if_neg (by omega)]
  rw [if_neg (by omega)]
  rw [if_pos (by omega)]

/-- Claim C9 witness: the amended statement at the segment `someTag2`,
which parses with ordinal 1. -/
theorem C9_witness :
    parseElement ("someTag2".toList) = some 1
    ∧ parseElement ("someTag[1".toList) = none :=
  C9_amended ("someTag2".toList) (by decide) (by decide) (by decide) (by decide)

end Scraper
